import Mathlib

/-!
# runj: filtering Linux default mounts out of an OCI bundle

A shallow embedding of `containerd/bundle.go`: the table
`incompatibleLinuxMounts`, the comparison `equalMounts` and the function
`filterIncompatibleLinuxMounts`, followed by the properties proved about them.

Conventions of the embedding

* A Go `string` is a `String`, a Go slice is a `List`.
* An index expression that Go would abort on (index out of range) makes the
  embedded function return `none`; every other result is `some _`.
* The file system, `filepath.Join` and `encoding/json` are libraries outside
  the repository.  They are the fields of a record `Sys`, and the embedded
  `filterIncompatibleLinuxMounts` is a function of that record, of the state
  of the file system and of the bundle path.
-/

namespace Runj

/-! ## Data model -/

/-- The type `specs.Mount` of the OCI runtime specification, with the four
fields the program reads. -/
structure Mount where
  /-- Mount point inside the container. -/
  Destination : String
  /-- The field `Type` of the source (a reserved word here). -/
  Typ : String
  Source : String
  Options : List String
  deriving DecidableEq, Repr

/-- The type `specs.Spec`: the field `Mounts`, and every other field of the
configuration gathered in `rest`, whose type is left open. -/
structure Spec (ρ : Type) where
  Mounts : List Mount
  rest : ρ

/-- The map literal `incompatibleLinuxMounts` (bundle.go, lines 13-56), as the
list of its key/value pairs in the order of the source. -/
def incompatibleLinuxMountsTable : List (String × Mount) :=
  [ ("/proc",
      { Destination := "/proc", Typ := "proc", Source := "proc",
        Options := ["nosuid", "noexec", "nodev"] }),
    ("/dev",
      { Destination := "/dev", Typ := "tmpfs", Source := "tmpfs",
        Options := ["nosuid", "strictatime", "mode=755", "size=65536k"] }),
    ("/dev/pts",
      { Destination := "/dev/pts", Typ := "devpts", Source := "devpts",
        Options := ["nosuid", "noexec", "newinstance", "ptmxmode=0666", "mode=0620", "gid=5"] }),
    ("/dev/shm",
      { Destination := "/dev/shm", Typ := "tmpfs", Source := "shm",
        Options := ["nosuid", "noexec", "nodev", "mode=1777", "size=65536k"] }),
    ("/dev/mqueue",
      { Destination := "/dev/mqueue", Typ := "mqueue", Source := "mqueue",
        Options := ["nosuid", "noexec", "nodev"] }),
    ("/sys",
      { Destination := "/sys", Typ := "sysfs", Source := "sysfs",
        Options := ["nosuid", "noexec", "nodev", "ro"] }),
    ("/run",
      { Destination := "/run", Typ := "tmpfs", Source := "tmpfs",
        Options := ["nosuid", "strictatime", "mode=755", "size=65536k"] }) ]

/-- The map access `incompatibleLinuxMounts[key]` in its two-result form
`toFilter, ok := ...`: `some toFilter` when `ok`, `none` otherwise. -/
def incompatibleLinuxMounts (key : String) : Option Mount :=
  incompatibleLinuxMountsTable.lookup key

/-! ## `equalMounts` -/

/-- The loop of `equalMounts` (lines 103-107), entered at index `i` with `n`
iterations left, that is `n = len(a.Options) - i`.  Each iteration reads
`a.Options[i]` and `b.Options[i]`; a read outside the slice is `none`. -/
def equalMountsLoop (aOptions bOptions : List String) : Nat → Nat → Option Bool
  | _, 0 => some true
  | i, n + 1 =>
    match aOptions[i]?, bOptions[i]? with
    | some x, some y =>
      if x != y then some false else equalMountsLoop aOptions bOptions (i + 1) n
    | _, _ => none

/-- The function `equalMounts` (lines 96-109). -/
def equalMounts (a b : Mount) : Option Bool :=
  if a.Source != b.Source ||
      a.Destination != b.Destination ||
      a.Typ != b.Typ ||
      a.Options.length != b.Options.length then
    some false
  else
    equalMountsLoop a.Options b.Options 0 a.Options.length

/-! ## The filtering pass -/

/-- The loop `for _, m := range spec.Mounts` (lines 76-83): the first argument
is what is left of `spec.Mounts`, the second the slice `mounts` built so
far. -/
def filterLoop : List Mount → List Mount → Option (List Mount)
  | [], mounts => some mounts
  | m :: rest, mounts =>
    match incompatibleLinuxMounts m.Destination with
    | some toFilter =>
      match equalMounts m toFilter with
      | none => none
      | some true => filterLoop rest mounts
      | some false => filterLoop rest (mounts ++ [m])
    | none => filterLoop rest (mounts ++ [m])

/-- The filtering pass (lines 75-83): `mounts := make([]specs.Mount, 0)`
followed by the loop. -/
def filterMounts (specMounts : List Mount) : Option (List Mount) :=
  filterLoop specMounts []

/-! ## The collaborators and `filterIncompatibleLinuxMounts` -/

/-- The libraries the function calls, none of which belongs to the
repository: the file system behind `ioutil.ReadFile` and `ioutil.WriteFile`,
`filepath.Join`, and `json.Unmarshal` / `json.Marshal` at the type
`specs.Spec`.  Nothing is assumed of them here; a theorem that needs a
property of a collaborator takes it as a hypothesis. -/
structure Sys where
  /-- States of the file system. -/
  State : Type
  /-- Contents of a file, Go's `[]byte`. -/
  Bytes : Type
  /-- Values of Go's `error` other than `nil`. -/
  Error : Type
  /-- The fields of `specs.Spec` other than `Mounts`. -/
  Rest : Type
  /-- The function `filepath.Join` on two elements. -/
  join : String → String → String
  /-- The call `ioutil.ReadFile(name)` in a state: the error, or the content.
  Reading leaves the state as it is. -/
  readFile : State → String → Except Error Bytes
  /-- The call `ioutil.WriteFile(name, data, perm)` in a state: the state it
  leaves, and the error if there is one. -/
  writeFile : State → String → Bytes → Nat → State × Option Error
  /-- The call `json.Unmarshal(data, spec)` on a zero `specs.Spec`. -/
  unmarshal : Bytes → Except Error (Spec Rest)
  /-- The call `json.Marshal(spec)`. -/
  marshal : Spec Rest → Except Error Bytes

/-- One call of a collaborator, with its arguments. -/
inductive Event (sys : Sys) where
  | readFile (name : String)
  | unmarshal (data : sys.Bytes)
  | marshal (spec : Spec sys.Rest)
  | writeFile (name : String) (data : sys.Bytes) (perm : Nat)

/-- Whether the event is a call of `ioutil.WriteFile`. -/
def Event.isWrite {sys : Sys} : Event sys → Bool
  | .writeFile _ _ _ => true
  | _ => false

/-- Whether the event is a call of `json.Marshal`. -/
def Event.isMarshal {sys : Sys} : Event sys → Bool
  | .marshal _ => true
  | _ => false

/-- How a call of `filterIncompatibleLinuxMounts` ends: it returns `nil`, it
returns an error, or it aborts on a run-time fault. -/
inductive Ret (ε : Type) where
  | nil
  | err (e : ε)
  | fault

/-- A Go `error` as the result of the call that returns it: `nil`, or the
error. -/
def Ret.ofError {ε : Type} : Option ε → Ret ε
  | none => .nil
  | some e => .err e

/-- A finished call: what it returned, the state of the file system it left,
and the collaborator calls it made, in order. -/
structure Run (sys : Sys) where
  ret : Ret sys.Error
  state : sys.State
  trace : List (Event sys)

/-- The function `filterIncompatibleLinuxMounts` (lines 60-93), run on the
state `st` of the file system. -/
def filterIncompatibleLinuxMounts (sys : Sys) (st : sys.State) (bundle : String) : Run sys :=
  if bundle = "" then
    ⟨.nil, st, []⟩
  else
    let configJSON := sys.join bundle "config.json"
    match sys.readFile st configJSON with
    | .error e => ⟨.err e, st, [.readFile configJSON]⟩
    | .ok configBytes =>
      match sys.unmarshal configBytes with
      | .error e => ⟨.err e, st, [.readFile configJSON, .unmarshal configBytes]⟩
      | .ok spec =>
        match filterMounts spec.Mounts with
        | none => ⟨.fault, st, [.readFile configJSON, .unmarshal configBytes]⟩
        | some mounts =>
          if spec.Mounts.length = mounts.length then
            ⟨.nil, st, [.readFile configJSON, .unmarshal configBytes]⟩
          else
            let spec' : Spec sys.Rest := { spec with Mounts := mounts }
            match sys.marshal spec' with
            | .error e =>
              ⟨.err e, st, [.readFile configJSON, .unmarshal configBytes, .marshal spec']⟩
            | .ok out =>
              let written := sys.writeFile st configJSON out 0
              ⟨Ret.ofError written.2, written.1,
                [.readFile configJSON, .unmarshal configBytes, .marshal spec',
                  .writeFile configJSON out 0]⟩

/-! ## Instances of the collaborators, for concrete runs -/

/-- An in-memory instance: the file system is an association list from names
to contents (a write puts the new content in front, a read of a missing name
fails), a content is either a configuration or `none` for text that does not
parse, and the configuration carries one string besides its mounts. -/
def memSys : Sys where
  State := List (String × Option (Spec String))
  Bytes := Option (Spec String)
  Error := String
  Rest := String
  join := fun dir name => dir ++ "/" ++ name
  readFile := fun st name =>
    match st.lookup name with
    | some data => .ok data
    | none => .error "no such file"
  writeFile := fun st name data _ => ((name, data) :: st, none)
  unmarshal := fun data =>
    match data with
    | some spec => .ok spec
    | none => .error "unexpected end of JSON input"
  marshal := fun spec => .ok (some spec)

/-- The default `/proc` mount of `incompatibleLinuxMounts`. -/
def procDefault : Mount :=
  ⟨"/proc", "proc", "proc", ["nosuid", "noexec", "nodev"]⟩

/-- A mount that is no entry of `incompatibleLinuxMounts`. -/
def customMount : Mount :=
  ⟨"/custom", "nullfs", "/data", ["ro"]⟩

/-- A configuration holding the default `/proc` mount and a custom mount. -/
def specProc : Spec String :=
  ⟨[procDefault, customMount], "process, root"⟩

/-- A configuration holding a custom mount only. -/
def specCustom : Spec String :=
  ⟨[customMount], "process, root"⟩

/-- A file system whose `bundle/config.json` holds `specProc`. -/
def stProc : List (String × Option (Spec String)) :=
  [("bundle/config.json", some specProc)]

/-- A file system whose `bundle/config.json` holds `specCustom`. -/
def stCustom : List (String × Option (Spec String)) :=
  [("bundle/config.json", some specCustom)]

/-- A file system whose `bundle/config.json` does not parse. -/
def stMalformed : List (String × Option (Spec String)) :=
  [("bundle/config.json", none)]

/-! ## Reference definitions, written from the specification -/

/-- Whether the filter is to delete the mount: its destination is a key of
`incompatibleLinuxMounts` and `equalMounts` reports it equal to the entry
stored under that key. -/
def matchesDenylist (m : Mount) : Bool :=
  match incompatibleLinuxMounts m.Destination with
  | some entry => equalMounts m entry == some true
  | none => false

/-- The entries of `incompatibleLinuxMounts`. -/
def denylistEntries : List Mount :=
  incompatibleLinuxMountsTable.map Prod.snd

/-- The fixed denylist as the specification tabulates it: one row for each
destination, holding the destination, the type, the source and the options,
in the order of the table. -/
def specDenylistRows : List (String × String × String × List String) :=
  [ ("/proc", "proc", "proc", ["nosuid", "noexec", "nodev"]),
    ("/dev", "tmpfs", "tmpfs", ["nosuid", "strictatime", "mode=755", "size=65536k"]),
    ("/dev/pts", "devpts", "devpts",
      ["nosuid", "noexec", "newinstance", "ptmxmode=0666", "mode=0620", "gid=5"]),
    ("/dev/shm", "tmpfs", "shm", ["nosuid", "noexec", "nodev", "mode=1777", "size=65536k"]),
    ("/dev/mqueue", "mqueue", "mqueue", ["nosuid", "noexec", "nodev"]),
    ("/sys", "sysfs", "sysfs", ["nosuid", "noexec", "nodev", "ro"]),
    ("/run", "tmpfs", "tmpfs", ["nosuid", "strictatime", "mode=755", "size=65536k"]) ]

/-- The denylist of the specification as a mapping: the type, source and
options required at a destination, when the table has a row for it. -/
def specDenylist (destination : String) : Option (String × String × List String) :=
  specDenylistRows.lookup destination

/-- The in-memory instance with an `ioutil.WriteFile` that fails and leaves
the file system as it is. -/
def memSysWriteFails : Sys :=
  { memSys with writeFile := fun st _ _ _ => (st, some "permission denied") }

/-- A `config.json` as `encoding/json` reads it into a `specs.Spec`: its
mounts, the other members that `specs.Spec` declares (process, root, ...), and
the members of the document that `specs.Spec` does not declare. -/
structure Document where
  mounts : List Mount
  declared : String
  undeclared : List (String × String)
  deriving DecidableEq

/-- An in-memory instance whose contents are documents: `json.Unmarshal`
fills the fields that `specs.Spec` declares and ignores the other members of
the document, `json.Marshal` writes the declared fields and nothing else.  The
file system is the association list of `memSys`. -/
def jsonSys : Sys where
  State := List (String × Document)
  Bytes := Document
  Error := String
  Rest := String
  join := fun dir name => dir ++ "/" ++ name
  readFile := fun st name =>
    match st.lookup name with
    | some data => .ok data
    | none => .error "no such file"
  writeFile := fun st name data _ => ((name, data) :: st, none)
  unmarshal := fun doc => .ok ⟨doc.mounts, doc.declared⟩
  marshal := fun spec => .ok ⟨spec.Mounts, spec.rest, []⟩

/-- A document with the default `/proc` mount, a custom mount, the declared
members, and one member `customField` that `specs.Spec` does not declare. -/
def docCustomField : Document :=
  ⟨[procDefault, customMount], "process, root", [("customField", "kept?")]⟩

/-- A file system whose `bundle/config.json` holds `docCustomField`. -/
def stCustomField : List (String × Document) :=
  [("bundle/config.json", docCustomField)]

/-! ## Lemmas on `equalMounts` -/

theorem equalMountsLoop_eq_decide (a b : List String) :
    ∀ n i, i + n = a.length → a.length = b.length →
      equalMountsLoop a b i n = some (decide (a.drop i = b.drop i)) := by
  intro n
  induction n with
  | zero =>
    intro i hi hlen
    have hia : a.length ≤ i := by omega
    have hib : b.length ≤ i := by omega
    simp [equalMountsLoop, List.drop_eq_nil_of_le hia, List.drop_eq_nil_of_le hib]
  | succ n ih =>
    intro i hi hlen
    have hia : i < a.length := by omega
    have hib : i < b.length := by omega
    have hda : a.drop i = a[i] :: a.drop (i + 1) := List.drop_eq_getElem_cons hia
    have hdb : b.drop i = b[i] :: b.drop (i + 1) := List.drop_eq_getElem_cons hib
    rw [equalMountsLoop, List.getElem?_eq_getElem hia, List.getElem?_eq_getElem hib, hda, hdb]
    by_cases hx : a[i] = b[i]
    · simp only [hx, bne_self_eq_false, Bool.false_eq_true, if_false, ih (i + 1) (by omega) hlen,
        List.cons.injEq, true_and]
    · have hb : (a[i] != b[i]) = true := by simpa using hx
      simp only [hb, if_true, List.cons.injEq, hx, false_and, decide_False]

theorem equalMounts_eq_decide (a b : Mount) : equalMounts a b = some (decide (a = b)) := by
  unfold equalMounts
  by_cases h : a.Source = b.Source ∧ a.Destination = b.Destination ∧ a.Typ = b.Typ ∧
      a.Options.length = b.Options.length
  · obtain ⟨h1, h2, h3, h4⟩ := h
    have hloop := equalMountsLoop_eq_decide a.Options b.Options a.Options.length 0 (by omega) h4
    simp only [List.drop_zero] at hloop
    simp only [h1, h2, h3, h4, bne_self_eq_false, Bool.or_self, Bool.false_eq_true, if_false,
      hloop]
    cases a; cases b
    simp_all
  · have hne : a ≠ b := by
      rintro rfl
      exact h ⟨rfl, rfl, rfl, rfl⟩
    have hcond : (a.Source != b.Source || a.Destination != b.Destination || a.Typ != b.Typ ||
        a.Options.length != b.Options.length) = true := by
      simp only [Bool.or_eq_true, bne_iff_ne, ne_eq]
      by_contra hc
      push_neg at hc
      exact h ⟨hc.1.1.1, hc.1.1.2, hc.1.2, hc.2⟩
    simp [hcond, hne]

theorem equalMounts_eq_true_iff (a b : Mount) : equalMounts a b = some true ↔ a = b := by
  simp [equalMounts_eq_decide]

theorem equalMounts_eq_false_iff (a b : Mount) : equalMounts a b = some false ↔ a ≠ b := by
  simp [equalMounts_eq_decide]

/-! ## Lemmas on the filtering pass -/

theorem filterLoop_eq_filter (ms : List Mount) :
    ∀ mounts, filterLoop ms mounts = some (mounts ++ ms.filter (fun m => !matchesDenylist m)) := by
  induction ms with
  | nil => intro mounts; simp [filterLoop]
  | cons m rest ih =>
    intro mounts
    unfold filterLoop
    cases hk : incompatibleLinuxMounts m.Destination with
    | none => simp [ih, matchesDenylist, hk]
    | some toFilter =>
      simp only [equalMounts_eq_decide]
      by_cases he : m = toFilter
      · have hm : matchesDenylist m = true := by
          simp only [matchesDenylist, hk, equalMounts_eq_decide]
          simp [he]
        simp only [he, decide_True]
        rw [ih, ← he, List.filter_cons]
        simp [hm]
      · have hm : matchesDenylist m = false := by
          simp [matchesDenylist, hk, equalMounts_eq_decide, he]
        simp [he, ih, hm]

theorem filterMounts_eq_filter (ms : List Mount) :
    filterMounts ms = some (ms.filter (fun m => !matchesDenylist m)) := by
  simp [filterMounts, filterLoop_eq_filter]

theorem mem_of_lookup_eq_some {α β : Type} [BEq α] [LawfulBEq α] (k : α) (v : β) :
    ∀ l : List (α × β), l.lookup k = some v → (k, v) ∈ l := by
  intro l
  induction l with
  | nil => intro h; simp at h
  | cons p rest ih =>
    obtain ⟨k', v'⟩ := p
    intro h
    by_cases hk : k = k'
    · subst hk
      simp [List.lookup] at h
      simp [h]
    · have hb : (k == k') = false := by simpa using hk
      simp only [List.lookup, hb] at h
      exact List.mem_cons_of_mem _ (ih h)

/-- The keys of the map literal are pairwise distinct, as Go requires of a map
literal: the order of the pairs in the table does not matter to a lookup. -/
theorem incompatibleLinuxMountsTable_keys_nodup :
    (incompatibleLinuxMountsTable.map Prod.fst).Nodup := by
  decide

theorem incompatibleLinuxMounts_mem_table (k : String) (e : Mount)
    (h : incompatibleLinuxMounts k = some e) : (k, e) ∈ incompatibleLinuxMountsTable :=
  mem_of_lookup_eq_some k e _ h

theorem incompatibleLinuxMounts_destination (k : String) (e : Mount)
    (h : incompatibleLinuxMounts k = some e) : e.Destination = k := by
  have hall : ∀ p ∈ incompatibleLinuxMountsTable, p.2.Destination = p.1 := by decide
  exact hall _ (incompatibleLinuxMounts_mem_table k e h)

theorem incompatibleLinuxMounts_of_mem_entries (e : Mount) (h : e ∈ denylistEntries) :
    incompatibleLinuxMounts e.Destination = some e := by
  have hall : ∀ x ∈ denylistEntries, incompatibleLinuxMounts x.Destination = some x := by decide
  exact hall e h

theorem matchesDenylist_iff_mem_entries (m : Mount) :
    matchesDenylist m = true ↔ m ∈ denylistEntries := by
  constructor
  · intro h
    unfold matchesDenylist at h
    cases hk : incompatibleLinuxMounts m.Destination with
    | none => simp [hk] at h
    | some entry =>
      simp only [hk, equalMounts_eq_decide] at h
      have hme : m = entry := by simpa using h
      have hmem := incompatibleLinuxMounts_mem_table _ _ hk
      rw [hme]
      exact List.mem_map.mpr ⟨_, hmem, rfl⟩
  · intro h
    simp [matchesDenylist, incompatibleLinuxMounts_of_mem_entries m h, equalMounts_eq_decide]

theorem filterMounts_append_cons_kept (pre post : List Mount) (m : Mount)
    (hm : matchesDenylist m = false) :
    filterMounts (pre ++ m :: post) =
      some (pre.filter (fun x => !matchesDenylist x) ++
        m :: post.filter (fun x => !matchesDenylist x)) := by
  simp [filterMounts_eq_filter, List.filter_cons, hm]

/-! ## Lemmas on `filterIncompatibleLinuxMounts`, one for each way through it -/

theorem length_filter_eq_iff (ms : List Mount) :
    ms.length = (ms.filter (fun m => !matchesDenylist m)).length ↔
      ∀ m ∈ ms, matchesDenylist m = false := by
  rw [eq_comm, List.filter_length_eq_length]
  simp

theorem run_read_error (sys : Sys) (st : sys.State) (bundle : String) (e : sys.Error)
    (hb : bundle ≠ "")
    (hr : sys.readFile st (sys.join bundle "config.json") = .error e) :
    filterIncompatibleLinuxMounts sys st bundle =
      ⟨.err e, st, [.readFile (sys.join bundle "config.json")]⟩ := by
  simp [filterIncompatibleLinuxMounts, hb, hr]

theorem run_parse_error (sys : Sys) (st : sys.State) (bundle : String)
    (configBytes : sys.Bytes) (e : sys.Error)
    (hb : bundle ≠ "")
    (hr : sys.readFile st (sys.join bundle "config.json") = .ok configBytes)
    (hp : sys.unmarshal configBytes = .error e) :
    filterIncompatibleLinuxMounts sys st bundle =
      ⟨.err e, st, [.readFile (sys.join bundle "config.json"), .unmarshal configBytes]⟩ := by
  simp [filterIncompatibleLinuxMounts, hb, hr, hp]

theorem run_nothing_removed (sys : Sys) (st : sys.State) (bundle : String)
    (configBytes : sys.Bytes) (spec : Spec sys.Rest)
    (hb : bundle ≠ "")
    (hr : sys.readFile st (sys.join bundle "config.json") = .ok configBytes)
    (hp : sys.unmarshal configBytes = .ok spec)
    (hkeep : ∀ m ∈ spec.Mounts, matchesDenylist m = false) :
    filterIncompatibleLinuxMounts sys st bundle =
      ⟨.nil, st, [.readFile (sys.join bundle "config.json"), .unmarshal configBytes]⟩ := by
  have hlen := (length_filter_eq_iff spec.Mounts).mpr hkeep
  simp only [filterIncompatibleLinuxMounts, hb, hr, hp, filterMounts_eq_filter, if_false]
  rw [if_pos hlen]

theorem run_marshal_error (sys : Sys) (st : sys.State) (bundle : String)
    (configBytes : sys.Bytes) (spec : Spec sys.Rest) (e : sys.Error)
    (hb : bundle ≠ "")
    (hr : sys.readFile st (sys.join bundle "config.json") = .ok configBytes)
    (hp : sys.unmarshal configBytes = .ok spec)
    (hrem : ∃ m ∈ spec.Mounts, matchesDenylist m = true)
    (hm : sys.marshal ⟨spec.Mounts.filter (fun m => !matchesDenylist m), spec.rest⟩ = .error e) :
    filterIncompatibleLinuxMounts sys st bundle =
      ⟨.err e, st, [.readFile (sys.join bundle "config.json"), .unmarshal configBytes,
        .marshal ⟨spec.Mounts.filter (fun m => !matchesDenylist m), spec.rest⟩]⟩ := by
  have hlen : ¬ spec.Mounts.length =
      (spec.Mounts.filter (fun m => !matchesDenylist m)).length := by
    rw [length_filter_eq_iff]
    obtain ⟨m, hmem, hmt⟩ := hrem
    intro h
    simp [h m hmem] at hmt
  simp only [filterIncompatibleLinuxMounts, hb, hr, hp, filterMounts_eq_filter, if_false]
  rw [if_neg hlen]
  simp only [hm]

theorem run_written (sys : Sys) (st : sys.State) (bundle : String)
    (configBytes out : sys.Bytes) (spec : Spec sys.Rest)
    (hb : bundle ≠ "")
    (hr : sys.readFile st (sys.join bundle "config.json") = .ok configBytes)
    (hp : sys.unmarshal configBytes = .ok spec)
    (hrem : ∃ m ∈ spec.Mounts, matchesDenylist m = true)
    (hm : sys.marshal ⟨spec.Mounts.filter (fun m => !matchesDenylist m), spec.rest⟩ = .ok out) :
    filterIncompatibleLinuxMounts sys st bundle =
      ⟨Ret.ofError (sys.writeFile st (sys.join bundle "config.json") out 0).2,
        (sys.writeFile st (sys.join bundle "config.json") out 0).1,
        [.readFile (sys.join bundle "config.json"), .unmarshal configBytes,
          .marshal ⟨spec.Mounts.filter (fun m => !matchesDenylist m), spec.rest⟩,
          .writeFile (sys.join bundle "config.json") out 0]⟩ := by
  have hlen : ¬ spec.Mounts.length =
      (spec.Mounts.filter (fun m => !matchesDenylist m)).length := by
    rw [length_filter_eq_iff]
    obtain ⟨m, hmem, hmt⟩ := hrem
    intro h
    simp [h m hmem] at hmt
  simp only [filterIncompatibleLinuxMounts, hb, hr, hp, filterMounts_eq_filter, if_false]
  rw [if_neg hlen]
  simp only [hm]

theorem filter_matchesDenylist_idem (ms : List Mount) :
    (ms.filter (fun m => !matchesDenylist m)).filter (fun m => !matchesDenylist m) =
      ms.filter (fun m => !matchesDenylist m) := by
  simp [List.filter_filter]

theorem any_isWrite_read_unmarshal (sys : Sys) (name : String) (data : sys.Bytes) :
    ([.readFile name, .unmarshal data] : List (Event sys)).any
      (fun ev => ev.isMarshal || ev.isWrite) = false := by
  simp [Event.isWrite, Event.isMarshal]

/-! ## Properties -/

/-- C1: for every list of mounts the filtering pass returns the input list
with exactly the mounts deleted whose destination is a key of
`incompatibleLinuxMounts` and which `equalMounts` reports equal to the entry
under that key.  The mounts kept are unchanged and in their original order
(the output is that sublist of the input), and every occurrence of a matching
mount is deleted (it occurs zero times in the output, while every other mount
occurs as often as in the input). -/
theorem filterMounts_deletes_exactly_the_matches (ms : List Mount) :
    ∃ out, filterMounts ms = some out ∧
      out = ms.filter (fun m => !matchesDenylist m) ∧
      out.Sublist ms ∧
      ∀ m, out.count m = if matchesDenylist m then 0 else ms.count m := by
  refine ⟨_, filterMounts_eq_filter ms, rfl, List.filter_sublist ms, ?_⟩
  intro m
  by_cases hm : matchesDenylist m = true
  · simp [hm, List.count_eq_zero, List.mem_filter]
  · simp only [hm, Bool.false_eq_true, if_false]
    rw [List.count_filter]
    simpa using hm

/-- C2: `equalMounts a b` always returns (its loop never reads `b.Options`, or
`a.Options`, out of range), and it returns true if and only if the two mounts
have the same source, destination and type, option lists of the same length,
and the same option string at every index.  In particular two mounts whose
option lists hold the same strings in a different order are not equal. -/
theorem equalMounts_true_iff_fields_and_options_agree (a b : Mount) :
    (equalMounts a b = some true ∨ equalMounts a b = some false) ∧
    (equalMounts a b = some true ↔
      a.Source = b.Source ∧ a.Destination = b.Destination ∧ a.Typ = b.Typ ∧
      a.Options.length = b.Options.length ∧
      ∀ i, i < a.Options.length → a.Options[i]? = b.Options[i]?) ∧
    (a.Options.Perm b.Options → a.Options ≠ b.Options → equalMounts a b = some false) ∧
    equalMounts { a with Options := ["nosuid", "noexec"] }
      { a with Options := ["noexec", "nosuid"] } = some false := by
  refine ⟨?_, ?_, ?_, ?_⟩
  · by_cases h : a = b <;> simp [equalMounts_eq_decide, h]
  · rw [equalMounts_eq_true_iff]
    constructor
    · rintro rfl
      simp
    · rintro ⟨h1, h2, h3, h4, h5⟩
      have hopt : a.Options = b.Options := by
        apply List.ext_getElem? 
        intro i
        by_cases hi : i < a.Options.length
        · exact h5 i hi
        · rw [List.getElem?_eq_none (by omega), List.getElem?_eq_none (by omega)]
      cases a; cases b
      simp_all
  · intro _ hne
    rw [equalMounts_eq_false_iff]
    intro hab
    exact hne (by rw [hab])
  · rw [equalMounts_eq_false_iff]
    intro hab
    have := congrArg Mount.Options hab
    simp at this

/-- C3: for every configuration the filtering pass returns a list none of
whose mounts is equal, per `equalMounts`, to any of the seven entries of
`incompatibleLinuxMounts`, and that list is the input restricted to the mounts
equal to no entry, in their original order.  On the input
[`/proc` default, `/custom`, `/dev` default] the output is [`/custom`]. -/
theorem filterMounts_output_free_of_denylist_entries (ms : List Mount) :
    denylistEntries.length = 7 ∧
    (∃ out, filterMounts ms = some out ∧
      (∀ m ∈ out, ∀ e ∈ denylistEntries, equalMounts m e = some false) ∧
      out = ms.filter (fun m => denylistEntries.all (fun e => equalMounts m e != some true))) ∧
    ∀ t s o,
      filterMounts
        [ ⟨"/proc", "proc", "proc", ["nosuid", "noexec", "nodev"]⟩,
          ⟨"/custom", t, s, o⟩,
          ⟨"/dev", "tmpfs", "tmpfs", ["nosuid", "strictatime", "mode=755", "size=65536k"]⟩ ] =
        some [⟨"/custom", t, s, o⟩] := by
  have hfun : (fun m => denylistEntries.all (fun e => equalMounts m e != some true)) =
      (fun m => !matchesDenylist m) := by
    funext m
    by_cases hm : m ∈ denylistEntries
    · rw [(matchesDenylist_iff_mem_entries m).mpr hm]
      simp only [Bool.not_true, List.all_eq_false]
      exact ⟨m, hm, by simp [equalMounts_eq_decide]⟩
    · have hm' : matchesDenylist m = false := by
        simpa using mt (matchesDenylist_iff_mem_entries m).mp hm
      rw [hm']
      simp only [Bool.not_false, List.all_eq_true]
      intro e he
      have hne : m ≠ e := fun h => hm (h ▸ he)
      simp [equalMounts_eq_decide, hne]
  refine ⟨by decide, ⟨_, filterMounts_eq_filter ms, ?_, by rw [hfun]⟩, ?_⟩
  · intro m hm e he
    rw [equalMounts_eq_false_iff]
    rintro rfl
    have := (List.mem_filter.mp hm).2
    simp [(matchesDenylist_iff_mem_entries m).mpr he] at this
  · intro t s o
    have hc : matchesDenylist ⟨"/custom", t, s, o⟩ = false := by
      simp [matchesDenylist, incompatibleLinuxMounts, incompatibleLinuxMountsTable, List.lookup]
    have hp : matchesDenylist ⟨"/proc", "proc", "proc", ["nosuid", "noexec", "nodev"]⟩ = true := by
      decide
    have hd : matchesDenylist
        ⟨"/dev", "tmpfs", "tmpfs", ["nosuid", "strictatime", "mode=755", "size=65536k"]⟩ = true := by
      decide
    simp [filterMounts_eq_filter, List.filter_cons, hc, hp, hd]

/-- C4: a mount whose destination is a key of `incompatibleLinuxMounts` but
whose type, source or ordered option list differs from the entry under that
key is kept by the filtering pass, unchanged and in its place: wherever it
stands in the input, the output is the filtered mounts before it, then the
mount itself, then the filtered mounts after it. -/
theorem filterMounts_keeps_customized_mount (pre post : List Mount) (m entry : Mount)
    (hkey : incompatibleLinuxMounts m.Destination = some entry)
    (hdiff : m.Typ ≠ entry.Typ ∨ m.Source ≠ entry.Source ∨ m.Options ≠ entry.Options) :
    ∃ pre' post', filterMounts pre = some pre' ∧ filterMounts post = some post' ∧
      filterMounts (pre ++ m :: post) = some (pre' ++ m :: post') := by
  have hne : m ≠ entry := by
    rintro rfl
    rcases hdiff with h | h | h <;> exact h rfl
  have hm : matchesDenylist m = false := by
    simp [matchesDenylist, hkey, equalMounts_eq_decide, hne]
  exact ⟨_, _, filterMounts_eq_filter pre, filterMounts_eq_filter post,
    filterMounts_append_cons_kept pre post m hm⟩

/-- Witness of C4: `/proc` with an added `ro`, `/proc` with `nodev` missing,
and `/proc` with its options in another order are each kept; so is the first
of them between two default mounts, which are deleted. -/
theorem filterMounts_keeps_customized_mount_witness :
    incompatibleLinuxMounts "/proc" = some procDefault ∧
    (∃ pre' post', filterMounts [procDefault] = some pre' ∧
      filterMounts [procDefault] = some post' ∧
      filterMounts ([procDefault] ++
        (⟨"/proc", "proc", "proc", ["nosuid", "noexec", "nodev", "ro"]⟩ : Mount) ::
          [procDefault]) =
        some (pre' ++ ⟨"/proc", "proc", "proc", ["nosuid", "noexec", "nodev", "ro"]⟩ :: post')) ∧
    filterMounts [procDefault, ⟨"/proc", "proc", "proc", ["nosuid", "noexec", "nodev", "ro"]⟩,
        procDefault] =
      some [⟨"/proc", "proc", "proc", ["nosuid", "noexec", "nodev", "ro"]⟩] ∧
    (∃ pre' post', filterMounts [] = some pre' ∧ filterMounts [] = some post' ∧
      filterMounts ([] ++ (⟨"/proc", "proc", "proc", ["nosuid", "noexec"]⟩ : Mount) :: []) =
        some (pre' ++ ⟨"/proc", "proc", "proc", ["nosuid", "noexec"]⟩ :: post')) ∧
    (∃ pre' post', filterMounts [] = some pre' ∧ filterMounts [] = some post' ∧
      filterMounts ([] ++ (⟨"/proc", "proc", "proc", ["noexec", "nosuid", "nodev"]⟩ : Mount)
        :: []) =
        some (pre' ++ ⟨"/proc", "proc", "proc", ["noexec", "nosuid", "nodev"]⟩ :: post')) :=
  ⟨by decide,
    filterMounts_keeps_customized_mount [procDefault] [procDefault]
      ⟨"/proc", "proc", "proc", ["nosuid", "noexec", "nodev", "ro"]⟩ procDefault
      (by decide) (by decide),
    by decide,
    filterMounts_keeps_customized_mount [] []
      ⟨"/proc", "proc", "proc", ["nosuid", "noexec"]⟩ procDefault (by decide) (by decide),
    filterMounts_keeps_customized_mount [] []
      ⟨"/proc", "proc", "proc", ["noexec", "nosuid", "nodev"]⟩ procDefault
      (by decide) (by decide)⟩

/-- C8: called with the empty bundle path, `filterIncompatibleLinuxMounts`
returns `nil`, leaves the state of the file system as it found it and calls no
collaborator: it neither reads nor writes a file. -/
theorem filterIncompatibleLinuxMounts_empty_bundle (sys : Sys) (st : sys.State) :
    filterIncompatibleLinuxMounts sys st "" = ⟨.nil, st, []⟩ := by
  simp [filterIncompatibleLinuxMounts]

/-- C5: for a non-empty bundle path whose `config.json` reads and parses, if
the filtering pass removes no mount (in particular if no mount's destination
is a key of `incompatibleLinuxMounts`), the call returns `nil` after the read
and the parse alone: it calls neither `json.Marshal` nor `ioutil.WriteFile`,
and the state of the file system is the one it started from. -/
theorem filterIncompatibleLinuxMounts_nothing_removed_no_write (sys : Sys) (st : sys.State)
    (bundle : String) (configBytes : sys.Bytes) (spec : Spec sys.Rest)
    (hb : bundle ≠ "")
    (hr : sys.readFile st (sys.join bundle "config.json") = .ok configBytes)
    (hp : sys.unmarshal configBytes = .ok spec)
    (hkeep : (∀ m ∈ spec.Mounts, matchesDenylist m = false) ∨
      (∀ m ∈ spec.Mounts, incompatibleLinuxMounts m.Destination = none)) :
    filterIncompatibleLinuxMounts sys st bundle =
      ⟨.nil, st, [.readFile (sys.join bundle "config.json"), .unmarshal configBytes]⟩ := by
  apply run_nothing_removed sys st bundle configBytes spec hb hr hp
  rcases hkeep with h | h
  · exact h
  · intro m hm
    simp [matchesDenylist, h m hm]

/-- Witness of C5: the in-memory bundle with a custom mount only. -/
theorem filterIncompatibleLinuxMounts_nothing_removed_no_write_witness :
    filterIncompatibleLinuxMounts memSys stCustom "bundle" =
      ⟨.nil, stCustom,
        [.readFile (memSys.join "bundle" "config.json"), .unmarshal (some specCustom)]⟩ :=
  filterIncompatibleLinuxMounts_nothing_removed_no_write memSys stCustom "bundle"
    (some specCustom) specCustom (by decide) rfl rfl (Or.inr (by decide))

/-- C6: for a non-empty bundle path whose `config.json` reads and parses and
in which at least one mount is removed, `out` being the serialization of the
parsed configuration with its mounts replaced by the filtered sequence, the
call makes exactly one write, `ioutil.WriteFile` of `out` to the path it read
(the bundle joined with `config.json`); the state it leaves is the one that
write leaves, so nothing else is written. -/
theorem filterIncompatibleLinuxMounts_one_write_when_serialized (sys : Sys) (st : sys.State)
    (bundle : String) (configBytes out : sys.Bytes) (spec : Spec sys.Rest)
    (mounts : List Mount)
    (hb : bundle ≠ "")
    (hr : sys.readFile st (sys.join bundle "config.json") = .ok configBytes)
    (hp : sys.unmarshal configBytes = .ok spec)
    (hf : filterMounts spec.Mounts = some mounts)
    (hrem : ∃ m ∈ spec.Mounts, matchesDenylist m = true)
    (hm : sys.marshal { spec with Mounts := mounts } = .ok out) :
    (filterIncompatibleLinuxMounts sys st bundle).trace =
      [.readFile (sys.join bundle "config.json"), .unmarshal configBytes,
        .marshal { spec with Mounts := mounts },
        .writeFile (sys.join bundle "config.json") out 0] ∧
    (filterIncompatibleLinuxMounts sys st bundle).trace.filter Event.isWrite =
      [.writeFile (sys.join bundle "config.json") out 0] ∧
    (filterIncompatibleLinuxMounts sys st bundle).state =
      (sys.writeFile st (sys.join bundle "config.json") out 0).1 ∧
    (filterIncompatibleLinuxMounts sys st bundle).ret =
      Ret.ofError (sys.writeFile st (sys.join bundle "config.json") out 0).2 := by
  have hmounts : mounts = spec.Mounts.filter (fun m => !matchesDenylist m) := by
    rw [filterMounts_eq_filter] at hf
    exact (Option.some.inj hf).symm
  subst hmounts
  rw [run_written sys st bundle configBytes out spec hb hr hp hrem hm]
  simp [Event.isWrite]

/-- Witness of C6: the in-memory bundle with the default `/proc`
mount and a custom mount. -/
theorem filterIncompatibleLinuxMounts_one_write_when_serialized_witness :
    (filterIncompatibleLinuxMounts memSys stProc "bundle").trace =
      [.readFile (memSys.join "bundle" "config.json"), .unmarshal (some specProc),
        .marshal { specProc with Mounts := [customMount] },
        .writeFile (memSys.join "bundle" "config.json")
          (some { specProc with Mounts := [customMount] }) 0] ∧
    (filterIncompatibleLinuxMounts memSys stProc "bundle").trace.filter Event.isWrite =
      [.writeFile (memSys.join "bundle" "config.json")
        (some { specProc with Mounts := [customMount] }) 0] ∧
    (filterIncompatibleLinuxMounts memSys stProc "bundle").state =
      (memSys.writeFile stProc (memSys.join "bundle" "config.json")
        (some { specProc with Mounts := [customMount] }) 0).1 ∧
    (filterIncompatibleLinuxMounts memSys stProc "bundle").ret =
      Ret.ofError (memSys.writeFile stProc (memSys.join "bundle" "config.json")
        (some { specProc with Mounts := [customMount] }) 0).2 :=
  filterIncompatibleLinuxMounts_one_write_when_serialized memSys stProc "bundle"
    (some specProc) (some { specProc with Mounts := [customMount] }) specProc [customMount]
    (by decide) rfl rfl (by decide) ⟨procDefault, by decide, by decide⟩ rfl

/-- C7, as amended: the mount filter is idempotent, filtering its own output
returns it unchanged.  Hence, when a first call on a bundle returns `nil`, and
the `config.json` it wrote (if it wrote) reads back as written and parses to a
configuration with the filtered mounts, a second call on the same bundle also
returns `nil`, removes nothing (it does not serialize), performs no write and
leaves the file system, so the content of `config.json`, as the first call
left it. -/
theorem filterIncompatibleLinuxMounts_second_run_changes_nothing (sys : Sys) (st : sys.State)
    (bundle : String) (ms : List Mount) (configBytes : sys.Bytes) (spec : Spec sys.Rest)
    (mounts : List Mount)
    (hb : bundle ≠ "")
    (hr : sys.readFile st (sys.join bundle "config.json") = .ok configBytes)
    (hp : sys.unmarshal configBytes = .ok spec)
    (hf : filterMounts spec.Mounts = some mounts)
    (hok : (filterIncompatibleLinuxMounts sys st bundle).ret = .nil)
    (hback : ∀ (out : sys.Bytes) (st' : sys.State),
      sys.marshal { spec with Mounts := mounts } = .ok out →
      sys.writeFile st (sys.join bundle "config.json") out 0 = (st', none) →
      sys.readFile st' (sys.join bundle "config.json") = .ok out ∧
        ∃ spec2, sys.unmarshal out = .ok spec2 ∧ spec2.Mounts = mounts) :
    (filterMounts ms).bind filterMounts = filterMounts ms ∧
    (filterIncompatibleLinuxMounts sys
      (filterIncompatibleLinuxMounts sys st bundle).state bundle).ret = .nil ∧
    (filterIncompatibleLinuxMounts sys
      (filterIncompatibleLinuxMounts sys st bundle).state bundle).state =
        (filterIncompatibleLinuxMounts sys st bundle).state ∧
    (filterIncompatibleLinuxMounts sys
      (filterIncompatibleLinuxMounts sys st bundle).state bundle).trace.any
        (fun ev => ev.isMarshal || ev.isWrite) = false := by
  refine ⟨by simp [filterMounts_eq_filter, filter_matchesDenylist_idem], ?_⟩
  have hmounts : mounts = spec.Mounts.filter (fun m => !matchesDenylist m) := by
    rw [filterMounts_eq_filter] at hf
    exact (Option.some.inj hf).symm
  subst hmounts
  by_cases hkeep : ∀ m ∈ spec.Mounts, matchesDenylist m = false
  · rw [run_nothing_removed sys st bundle configBytes spec hb hr hp hkeep]
    simp only
    rw [run_nothing_removed sys st bundle configBytes spec hb hr hp hkeep]
    exact ⟨rfl, rfl, any_isWrite_read_unmarshal sys _ _⟩
  · have hrem : ∃ m ∈ spec.Mounts, matchesDenylist m = true := by
      push_neg at hkeep
      obtain ⟨m, hm, hne⟩ := hkeep
      exact ⟨m, hm, by simpa using hne⟩
    cases hm : sys.marshal
        ⟨spec.Mounts.filter (fun m => !matchesDenylist m), spec.rest⟩ with
    | error e =>
      rw [run_marshal_error sys st bundle configBytes spec e hb hr hp hrem hm] at hok
      cases hok
    | ok out =>
      rw [run_written sys st bundle configBytes out spec hb hr hp hrem hm] at hok ⊢
      simp only at hok ⊢
      cases hw : sys.writeFile st (sys.join bundle "config.json") out 0 with
      | mk st' werr =>
        rw [hw] at hok
        cases werr with
        | some e => cases hok
        | none =>
          simp only
          obtain ⟨hr', spec2, hp', hmo⟩ := hback out st' hm hw
          have hkeep' : ∀ m ∈ spec2.Mounts, matchesDenylist m = false := by
            intro m hmem
            rw [hmo] at hmem
            simpa using (List.mem_filter.mp hmem).2
          rw [run_nothing_removed sys st' bundle out spec2 hb hr' hp' hkeep']
          exact ⟨rfl, rfl, any_isWrite_read_unmarshal sys _ _⟩

/-- Witness of C7 as amended: two calls on the in-memory bundle with the
default `/proc` mount and a custom mount. -/
theorem filterIncompatibleLinuxMounts_second_run_changes_nothing_witness :
    (filterIncompatibleLinuxMounts memSys stProc "bundle").ret = .nil ∧
    (filterIncompatibleLinuxMounts memSys stProc "bundle").state =
      [("bundle/config.json", some ⟨[customMount], "process, root"⟩),
        ("bundle/config.json", some specProc)] ∧
    (filterMounts [procDefault, customMount]).bind filterMounts =
      filterMounts [procDefault, customMount] ∧
    (filterIncompatibleLinuxMounts memSys
      (filterIncompatibleLinuxMounts memSys stProc "bundle").state "bundle").ret = .nil ∧
    (filterIncompatibleLinuxMounts memSys
      (filterIncompatibleLinuxMounts memSys stProc "bundle").state "bundle").state =
        (filterIncompatibleLinuxMounts memSys stProc "bundle").state ∧
    (filterIncompatibleLinuxMounts memSys
      (filterIncompatibleLinuxMounts memSys stProc "bundle").state "bundle").trace.any
        (fun ev => ev.isMarshal || ev.isWrite) = false :=
  ⟨rfl, rfl,
    filterIncompatibleLinuxMounts_second_run_changes_nothing memSys stProc "bundle"
      [procDefault, customMount] (some specProc) specProc [customMount]
      (by decide) rfl rfl (by decide) rfl
      (by
        intro out st' hm hw
        have hout : out = some ⟨[customMount], "process, root"⟩ :=
          (Except.ok.inj hm).symm
        have hst : st' = ("bundle/config.json", out) :: stProc := (Prod.mk.inj hw).1.symm
        subst hout
        subst hst
        exact ⟨rfl, _, rfl, rfl⟩)⟩

/-- Counterexample to C7 as stated: with an `ioutil.WriteFile` that fails and
leaves the file as it was, the first call on the in-memory bundle returns the
error of the write, and the second call finds the same file, removes the
default `/proc` mount again, serializes and writes again. -/
theorem filterIncompatibleLinuxMounts_second_run_writes_after_failed_write :
    (filterIncompatibleLinuxMounts memSysWriteFails stProc "bundle").ret =
      .err "permission denied" ∧
    (filterIncompatibleLinuxMounts memSysWriteFails stProc "bundle").state = stProc ∧
    filterMounts specProc.Mounts = some [customMount] ∧
    (filterIncompatibleLinuxMounts memSysWriteFails
      (filterIncompatibleLinuxMounts memSysWriteFails stProc "bundle").state "bundle").trace =
      [.readFile "bundle/config.json", .unmarshal (some specProc),
        .marshal ⟨[customMount], "process, root"⟩,
        .writeFile "bundle/config.json" (some ⟨[customMount], "process, root"⟩) 0] ∧
    (filterIncompatibleLinuxMounts memSysWriteFails
      (filterIncompatibleLinuxMounts memSysWriteFails stProc "bundle").state "bundle").trace.any
        (fun ev => ev.isMarshal || ev.isWrite) = true :=
  ⟨rfl, rfl, by decide, rfl, rfl⟩

/-- C9, as amended: when the filtering pass removes mounts and the
serialization succeeds with `out`, the configuration serialized has the
filtered mounts and, for every other field (process, root, ...), exactly what
`json.Unmarshal` produced from the file; the call is the read, the parse, that
serialization and the write of `out` to the path read, and the file system is
left as that write leaves it.  What is written is determined by the parsed
configuration alone: any content that parses to the same configuration yields
the same write, so what the parser does not retain of the original document
is not carried over. -/
theorem filterIncompatibleLinuxMounts_writes_parsed_fields_unchanged (sys : Sys)
    (st : sys.State) (bundle : String) (configBytes out : sys.Bytes) (spec : Spec sys.Rest)
    (mounts : List Mount)
    (hb : bundle ≠ "")
    (hr : sys.readFile st (sys.join bundle "config.json") = .ok configBytes)
    (hp : sys.unmarshal configBytes = .ok spec)
    (hf : filterMounts spec.Mounts = some mounts)
    (hrem : ∃ m ∈ spec.Mounts, matchesDenylist m = true)
    (hm : sys.marshal { spec with Mounts := mounts } = .ok out) :
    (∃ spec' : Spec sys.Rest, spec'.rest = spec.rest ∧ spec'.Mounts = mounts ∧
      sys.marshal spec' = .ok out ∧
      filterIncompatibleLinuxMounts sys st bundle =
        ⟨Ret.ofError (sys.writeFile st (sys.join bundle "config.json") out 0).2,
          (sys.writeFile st (sys.join bundle "config.json") out 0).1,
          [.readFile (sys.join bundle "config.json"), .unmarshal configBytes,
            .marshal spec', .writeFile (sys.join bundle "config.json") out 0]⟩) ∧
    ∀ (st2 : sys.State) (configBytes2 : sys.Bytes),
      sys.readFile st2 (sys.join bundle "config.json") = .ok configBytes2 →
      sys.unmarshal configBytes2 = .ok spec →
      (filterIncompatibleLinuxMounts sys st2 bundle).trace.filter Event.isWrite =
        [.writeFile (sys.join bundle "config.json") out 0] := by
  have hmounts : mounts = spec.Mounts.filter (fun m => !matchesDenylist m) := by
    rw [filterMounts_eq_filter] at hf
    exact (Option.some.inj hf).symm
  subst hmounts
  refine ⟨⟨⟨spec.Mounts.filter (fun m => !matchesDenylist m), spec.rest⟩, rfl, rfl, hm,
    run_written sys st bundle configBytes out spec hb hr hp hrem hm⟩, ?_⟩
  intro st2 configBytes2 hr2 hp2
  rw [run_written sys st2 bundle configBytes2 out spec hb hr2 hp2 hrem hm]
  simp [Event.isWrite]

/-- Witness of C9 as amended: the in-memory bundle with the default `/proc`
mount and a custom mount; its other fields are the string `process, root`. -/
theorem filterIncompatibleLinuxMounts_writes_parsed_fields_unchanged_witness :
    (∃ spec' : Spec memSys.Rest, spec'.rest = specProc.rest ∧ spec'.Mounts = [customMount] ∧
      memSys.marshal spec' = .ok (some ⟨[customMount], "process, root"⟩) ∧
      filterIncompatibleLinuxMounts memSys stProc "bundle" =
        ⟨Ret.ofError (memSys.writeFile stProc (memSys.join "bundle" "config.json")
            (some ⟨[customMount], "process, root"⟩) 0).2,
          (memSys.writeFile stProc (memSys.join "bundle" "config.json")
            (some ⟨[customMount], "process, root"⟩) 0).1,
          [.readFile (memSys.join "bundle" "config.json"), .unmarshal (some specProc),
            .marshal spec',
            .writeFile (memSys.join "bundle" "config.json")
              (some ⟨[customMount], "process, root"⟩) 0]⟩) ∧
    ∀ (st2 : memSys.State) (configBytes2 : memSys.Bytes),
      memSys.readFile st2 (memSys.join "bundle" "config.json") = .ok configBytes2 →
      memSys.unmarshal configBytes2 = .ok specProc →
      (filterIncompatibleLinuxMounts memSys st2 "bundle").trace.filter Event.isWrite =
        [.writeFile (memSys.join "bundle" "config.json")
          (some ⟨[customMount], "process, root"⟩) 0] :=
  filterIncompatibleLinuxMounts_writes_parsed_fields_unchanged memSys stProc "bundle"
    (some specProc) (some ⟨[customMount], "process, root"⟩) specProc [customMount]
    (by decide) rfl rfl (by decide) ⟨procDefault, by decide, by decide⟩ rfl

/-- Counterexample to C9 as stated: `bundle/config.json` holds a member
`customField` that `specs.Spec` does not declare, next to the default `/proc`
mount.  The call removes the mount and rewrites the file, and the rewritten
document has lost `customField`: it differs from the original in more than its
mounts. -/
theorem filterIncompatibleLinuxMounts_drops_undeclared_members :
    jsonSys.readFile stCustomField (jsonSys.join "bundle" "config.json") =
      .ok docCustomField ∧
    docCustomField.undeclared = [("customField", "kept?")] ∧
    (filterIncompatibleLinuxMounts jsonSys stCustomField "bundle").ret = .nil ∧
    (filterIncompatibleLinuxMounts jsonSys stCustomField "bundle").trace.filter Event.isWrite =
      [.writeFile "bundle/config.json" ⟨[customMount], "process, root", []⟩ 0] ∧
    jsonSys.readFile (filterIncompatibleLinuxMounts jsonSys stCustomField "bundle").state
      (jsonSys.join "bundle" "config.json") = .ok ⟨[customMount], "process, root", []⟩ ∧
    (⟨[customMount], "process, root", []⟩ : Document).declared = docCustomField.declared ∧
    (⟨[customMount], "process, root", []⟩ : Document).undeclared ≠ docCustomField.undeclared :=
  ⟨rfl, rfl, rfl, rfl, rfl, rfl, by decide⟩

/-- C10: for a non-empty bundle path, if reading `config.json` fails, or it
reads and its content does not parse, the call returns an error, performs no
write, and leaves the state of the file system, the original file included,
as it found it. -/
theorem filterIncompatibleLinuxMounts_read_or_parse_failure (sys : Sys) (st : sys.State)
    (bundle : String)
    (hb : bundle ≠ "")
    (hfail : (∃ e, sys.readFile st (sys.join bundle "config.json") = .error e) ∨
      (∃ configBytes e, sys.readFile st (sys.join bundle "config.json") = .ok configBytes ∧
        sys.unmarshal configBytes = .error e)) :
    (∃ e, (filterIncompatibleLinuxMounts sys st bundle).ret = .err e) ∧
    (filterIncompatibleLinuxMounts sys st bundle).state = st ∧
    (filterIncompatibleLinuxMounts sys st bundle).trace.any Event.isWrite = false := by
  rcases hfail with ⟨e, hr⟩ | ⟨configBytes, e, hr, hp⟩
  · rw [run_read_error sys st bundle e hb hr]
    exact ⟨⟨e, rfl⟩, rfl, by simp [Event.isWrite]⟩
  · rw [run_parse_error sys st bundle configBytes e hb hr hp]
    exact ⟨⟨e, rfl⟩, rfl, by simp [Event.isWrite]⟩

/-- Witness of C10: in memory, a bundle without `config.json` (the read fails)
and a bundle whose `config.json` does not parse. -/
theorem filterIncompatibleLinuxMounts_read_or_parse_failure_witness :
    ((∃ e, (filterIncompatibleLinuxMounts memSys stProc "elsewhere").ret = .err e) ∧
      (filterIncompatibleLinuxMounts memSys stProc "elsewhere").state = stProc ∧
      (filterIncompatibleLinuxMounts memSys stProc "elsewhere").trace.any Event.isWrite =
        false) ∧
    ((∃ e, (filterIncompatibleLinuxMounts memSys stMalformed "bundle").ret = .err e) ∧
      (filterIncompatibleLinuxMounts memSys stMalformed "bundle").state = stMalformed ∧
      (filterIncompatibleLinuxMounts memSys stMalformed "bundle").trace.any Event.isWrite =
        false) :=
  ⟨filterIncompatibleLinuxMounts_read_or_parse_failure memSys stProc "elsewhere" (by decide)
      (Or.inl ⟨"no such file", rfl⟩),
    filterIncompatibleLinuxMounts_read_or_parse_failure memSys stMalformed "bundle" (by decide)
      (Or.inr ⟨none, "unexpected end of JSON input", rfl, rfl⟩)⟩

/-- C11: `incompatibleLinuxMounts` has exactly the seven keys `/proc`, `/dev`,
`/dev/pts`, `/dev/shm`, `/dev/mqueue`, `/sys` and `/run`, and under every key
it holds the type, source and ordered option list of the specification's
table (and nothing under any other string); in particular `/dev/pts` and
`/dev/shm` map to the rows quoted in the claim. -/
theorem incompatibleLinuxMounts_is_the_specified_table (key : String) :
    incompatibleLinuxMountsTable.map Prod.fst =
      ["/proc", "/dev", "/dev/pts", "/dev/shm", "/dev/mqueue", "/sys", "/run"] ∧
    ((incompatibleLinuxMounts key).isSome ↔
      key ∈ ["/proc", "/dev", "/dev/pts", "/dev/shm", "/dev/mqueue", "/sys", "/run"]) ∧
    (incompatibleLinuxMounts key).map (fun e => (e.Typ, e.Source, e.Options)) =
      specDenylist key ∧
    incompatibleLinuxMounts "/dev/pts" =
      some ⟨"/dev/pts", "devpts", "devpts",
        ["nosuid", "noexec", "newinstance", "ptmxmode=0666", "mode=0620", "gid=5"]⟩ ∧
    incompatibleLinuxMounts "/dev/shm" =
      some ⟨"/dev/shm", "tmpfs", "shm",
        ["nosuid", "noexec", "nodev", "mode=1777", "size=65536k"]⟩ := by
  refine ⟨by decide, ?_, ?_, by decide, by decide⟩
  · constructor
    · intro h
      obtain ⟨e, he⟩ := Option.isSome_iff_exists.mp h
      have hmem := incompatibleLinuxMounts_mem_table key e he
      have hkeys : key ∈ incompatibleLinuxMountsTable.map Prod.fst :=
        List.mem_map.mpr ⟨_, hmem, rfl⟩
      have hlist : incompatibleLinuxMountsTable.map Prod.fst =
          ["/proc", "/dev", "/dev/pts", "/dev/shm", "/dev/mqueue", "/sys", "/run"] := by decide
      rwa [hlist] at hkeys
    · intro h
      have hall : ∀ k ∈ ["/proc", "/dev", "/dev/pts", "/dev/shm", "/dev/mqueue", "/sys", "/run"],
          (incompatibleLinuxMounts k).isSome = true := by decide
      exact hall key h
  · have hgen : ∀ (rows : List (String × Mount)),
        (rows.lookup key).map (fun e => (e.Typ, e.Source, e.Options)) =
          (rows.map (fun p => (p.1, p.2.Typ, p.2.Source, p.2.Options))).lookup key := by
      intro rows
      induction rows with
      | nil => simp
      | cons p rest ih =>
        obtain ⟨k, e⟩ := p
        by_cases hk : key = k
        · subst hk
          simp [List.lookup]
        · have hb : (key == k) = false := by simpa using hk
          simp only [List.lookup, List.map_cons, hb, ih]
    have hrows : incompatibleLinuxMountsTable.map
        (fun p => (p.1, p.2.Typ, p.2.Source, p.2.Options)) = specDenylistRows := by decide
    rw [incompatibleLinuxMounts, hgen, hrows, specDenylist]

/-- C12: for a non-empty bundle path the call never aborts, and it returns the
error `e` if and only if `ioutil.ReadFile` failed with `e`, or `json.Unmarshal`
failed with `e`, or at least one mount was removed and `json.Marshal` failed
with `e` or `ioutil.WriteFile` failed with `e`.  The error returned is thus
the collaborator's own, and a failure of the serialization or of the write is
never reported as `nil`. -/
theorem filterIncompatibleLinuxMounts_error_iff_collaborator_fails (sys : Sys) (st : sys.State)
    (bundle : String) (e : sys.Error)
    (hb : bundle ≠ "") :
    (filterIncompatibleLinuxMounts sys st bundle).ret ≠ .fault ∧
    ((filterIncompatibleLinuxMounts sys st bundle).ret = .err e ↔
      sys.readFile st (sys.join bundle "config.json") = .error e ∨
      (∃ configBytes, sys.readFile st (sys.join bundle "config.json") = .ok configBytes ∧
        sys.unmarshal configBytes = .error e) ∨
      (∃ configBytes spec mounts,
        sys.readFile st (sys.join bundle "config.json") = .ok configBytes ∧
        sys.unmarshal configBytes = .ok spec ∧
        filterMounts spec.Mounts = some mounts ∧
        (∃ m ∈ spec.Mounts, matchesDenylist m = true) ∧
        (sys.marshal { spec with Mounts := mounts } = .error e ∨
          ∃ out, sys.marshal { spec with Mounts := mounts } = .ok out ∧
            (sys.writeFile st (sys.join bundle "config.json") out 0).2 = some e))) := by
  cases hr : sys.readFile st (sys.join bundle "config.json") with
  | error e' =>
    rw [run_read_error sys st bundle e' hb hr]
    simp
  | ok configBytes =>
    cases hp : sys.unmarshal configBytes with
    | error e' =>
      rw [run_parse_error sys st bundle configBytes e' hb hr hp]
      simp [hp]
    | ok spec =>
      by_cases hkeep : ∀ m ∈ spec.Mounts, matchesDenylist m = false
      · rw [run_nothing_removed sys st bundle configBytes spec hb hr hp hkeep]
        refine ⟨by simp, ?_⟩
        constructor
        · intro h
          cases h
        · rintro (h | ⟨b, h⟩ | ⟨b, sp, ms, hb', hsp, -, ⟨m, hm, hmt⟩, -⟩)
          · cases h
          · obtain ⟨h1, h2⟩ := h
            cases h1
            rw [hp] at h2
            cases h2
          · cases hb'
            rw [hp] at hsp
            cases hsp
            simp [hkeep m hm] at hmt
      · have hrem : ∃ m ∈ spec.Mounts, matchesDenylist m = true := by
          push_neg at hkeep
          obtain ⟨m, hm, hne⟩ := hkeep
          exact ⟨m, hm, by simpa using hne⟩
        have hthird : ∀ P : sys.Bytes → Spec sys.Rest → List Mount → Prop,
            (∃ b sp ms, (Except.ok configBytes : Except sys.Error sys.Bytes) = .ok b ∧
              sys.unmarshal b = .ok sp ∧ filterMounts sp.Mounts = some ms ∧
              (∃ m ∈ sp.Mounts, matchesDenylist m = true) ∧ P b sp ms) ↔
            P configBytes spec (spec.Mounts.filter (fun m => !matchesDenylist m)) := by
          intro P
          constructor
          · rintro ⟨b, sp, ms, h1, h2, h3, -, h5⟩
            cases h1
            rw [hp] at h2
            cases h2
            rw [filterMounts_eq_filter] at h3
            cases h3
            exact h5
          · intro h
            exact ⟨configBytes, spec, _, rfl, hp, filterMounts_eq_filter _, hrem, h⟩
        rw [hthird (fun _ sp ms => sys.marshal { sp with Mounts := ms } = .error e ∨
          ∃ out, sys.marshal { sp with Mounts := ms } = .ok out ∧
            (sys.writeFile st (sys.join bundle "config.json") out 0).2 = some e)]
        cases hm : sys.marshal
            ⟨spec.Mounts.filter (fun m => !matchesDenylist m), spec.rest⟩ with
        | error e' =>
          rw [run_marshal_error sys st bundle configBytes spec e' hb hr hp hrem hm]
          simp [hp]
        | ok out =>
          rw [run_written sys st bundle configBytes out spec hb hr hp hrem hm]
          cases hw : (sys.writeFile st (sys.join bundle "config.json") out 0).2 with
          | none => simp [Ret.ofError, hp, hw]
          | some e' => simp [Ret.ofError, hp, hw]

/-- Witness of C12: on the in-memory bundle with the default `/proc` mount
and an `ioutil.WriteFile` that fails, the call returns the error of the write
and does not abort. -/
theorem filterIncompatibleLinuxMounts_error_iff_collaborator_fails_witness :
    (filterIncompatibleLinuxMounts memSysWriteFails stProc "bundle").ret =
      .err "permission denied" ∧
    (filterIncompatibleLinuxMounts memSysWriteFails stProc "bundle").ret ≠ .fault :=
  ⟨(filterIncompatibleLinuxMounts_error_iff_collaborator_fails memSysWriteFails stProc
      "bundle" "permission denied" (by decide)).2.mpr
      (Or.inr (Or.inr ⟨some specProc, specProc, [customMount], rfl, rfl, by decide,
        ⟨procDefault, by decide, by decide⟩,
        Or.inr ⟨some { specProc with Mounts := [customMount] }, rfl, rfl⟩⟩)),
    (filterIncompatibleLinuxMounts_error_iff_collaborator_fails memSysWriteFails stProc
      "bundle" "permission denied" (by decide)).1⟩

/-- C13: for every list of mounts the filtered sequence is no longer than the
original, and the two lengths are equal if and only if no mount was removed,
which holds if and only if the filtered sequence is the original one, element
for element. -/
theorem filterMounts_length_eq_iff_nothing_removed (ms : List Mount) :
    ∃ out, filterMounts ms = some out ∧
      out.length ≤ ms.length ∧
      (ms.length = out.length ↔ ∀ m ∈ ms, matchesDenylist m = false) ∧
      (ms.length = out.length ↔ out = ms) := by
  refine ⟨_, filterMounts_eq_filter ms, List.length_filter_le _ ms, length_filter_eq_iff ms, ?_⟩
  rw [length_filter_eq_iff, List.filter_eq_self]
  simp

/-- C14: every entry of `incompatibleLinuxMounts` has as its `Destination` the
key it is stored under, so the map finds it under its own destination and the
filter removes it: filtering the one-element list holding the entry gives the
empty list. -/
theorem incompatibleLinuxMounts_entry_is_removed (key : String) (e : Mount)
    (h : (key, e) ∈ incompatibleLinuxMountsTable) :
    e.Destination = key ∧
    incompatibleLinuxMounts e.Destination = some e ∧
    equalMounts e e = some true ∧
    filterMounts [e] = some [] := by
  have hall : ∀ p ∈ incompatibleLinuxMountsTable, p.2.Destination = p.1 := by decide
  have hmem : e ∈ denylistEntries := List.mem_map.mpr ⟨_, h, rfl⟩
  refine ⟨hall _ h, incompatibleLinuxMounts_of_mem_entries e hmem,
    (equalMounts_eq_true_iff e e).mpr rfl, ?_⟩
  rw [filterMounts_eq_filter]
  simp [(matchesDenylist_iff_mem_entries e).mpr hmem]

/-- Witness of C14: the entry stored under `/dev/shm`. -/
theorem incompatibleLinuxMounts_entry_is_removed_witness :
    (⟨"/dev/shm", "tmpfs", "shm",
      ["nosuid", "noexec", "nodev", "mode=1777", "size=65536k"]⟩ : Mount).Destination =
        "/dev/shm" ∧
    incompatibleLinuxMounts (⟨"/dev/shm", "tmpfs", "shm",
      ["nosuid", "noexec", "nodev", "mode=1777", "size=65536k"]⟩ : Mount).Destination =
        some ⟨"/dev/shm", "tmpfs", "shm",
          ["nosuid", "noexec", "nodev", "mode=1777", "size=65536k"]⟩ ∧
    equalMounts
      ⟨"/dev/shm", "tmpfs", "shm", ["nosuid", "noexec", "nodev", "mode=1777", "size=65536k"]⟩
      ⟨"/dev/shm", "tmpfs", "shm", ["nosuid", "noexec", "nodev", "mode=1777", "size=65536k"]⟩ =
        some true ∧
    filterMounts
      [⟨"/dev/shm", "tmpfs", "shm",
        ["nosuid", "noexec", "nodev", "mode=1777", "size=65536k"]⟩] = some [] :=
  incompatibleLinuxMounts_entry_is_removed "/dev/shm"
    ⟨"/dev/shm", "tmpfs", "shm", ["nosuid", "noexec", "nodev", "mode=1777", "size=65536k"]⟩
    (by decide)

/-- C15: `equalMounts` is an equivalence relation on mounts: it reports every
mount equal to itself, its result does not depend on the order of its two
arguments, and if it reports `a` equal to `b` and `b` equal to `c` it reports
`a` equal to `c`. -/
theorem equalMounts_is_an_equivalence (a b c : Mount) :
    equalMounts a a = some true ∧
    equalMounts a b = equalMounts b a ∧
    (equalMounts a b = some true → equalMounts b c = some true →
      equalMounts a c = some true) := by
  refine ⟨(equalMounts_eq_true_iff a a).mpr rfl, ?_, ?_⟩
  · rw [equalMounts_eq_decide, equalMounts_eq_decide]
    congr 1
    exact decide_eq_decide.mpr eq_comm
  · intro hab hbc
    rw [equalMounts_eq_true_iff] at hab hbc ⊢
    exact hab.trans hbc

end Runj
